import Mathlib

/-!
Verification of the CrossPost per-post pipeline (`src/crosspost.py`).

Texts are modelled as `List Char` (Python `str` is a sequence of code points;
slicing and `len` act on code points), and UTF-8 encodings as `List Nat`
(byte values), exactly as produced by `str.encode("UTF-8")`.
-/

set_option maxRecDepth 8000

namespace CrossPost

/-- Python `str.replace(old, new)` on code-point lists: scans left to right,
replacing non-overlapping occurrences of `old` by `new`.  Fuel-based recursion;
every call site of the script passes a non-empty `old` (the replace map skips
empty keys, and the fixed artifact `"@twitter.com"` is non-empty), for which
fuel `s.length` is sufficient. -/
def pyReplace : Nat → List Char → List Char → List Char → List Char
  | 0, s, _, _ => s
  | _ + 1, [], _, _ => []
  | fuel + 1, a :: t, old, new =>
    if old.isPrefixOf (a :: t) then new ++ pyReplace fuel ((a :: t).drop old.length) old new
    else a :: pyReplace fuel t old new

/-- `s.replace(old, new)` at full fuel. -/
def strReplace (s old new : List Char) : List Char := pyReplace s.length s old new

/-- The replace-map loop of `CrossPoster.on_update` (lines 519-525): each
(key, value) pair with both parts non-empty is substituted case-sensitively, in
mapping order, each replacement acting on the already-modified text. -/
def applyReplace (c : List Char) (m : List (List Char × List Char)) : List Char :=
  m.foldl (fun acc kv => if kv.1 ≠ [] ∧ kv.2 ≠ [] then strReplace acc kv.1 kv.2 else acc) c

/-- The system-mention artifact removed by both adapter legs:
`c.replace("@twitter.com", "")`. -/
def artifact : List Char := "@twitter.com".data

/-- Link-suffix step shared by both legs (lines 530-534 and 546-549): when a
non-empty link base is configured, build `base + "/" + postID` and append it
after a newline only if the total stays within `limit`. -/
def appendLink (limit : Nat) (pfx : Option (List Char)) (postId : List Char)
    (y : List Char) : List Char :=
  match pfx with
  | none => y
  | some p =>
    if 0 < p.length then
      let v := p ++ '/' :: postId
      if y.length + v.length + 1 ≤ limit then y ++ '\n' :: v else y
    else y

/-- Twitter leg, artifact removal plus truncation (lines 527-529):
`y = c.replace("@twitter.com", "")`; `if len(y) > 280: y = y[0:276] + " ..."`. -/
def twitterTrunc (c : List Char) : List Char :=
  let y := strReplace c artifact []
  if 280 < y.length then y.take 276 ++ " ...".data else y

/-- Full text adaptation of the Twitter leg (lines 527-534). -/
def twitterAdapterText (c : List Char) (pfx : Option (List Char)) (postId : List Char) :
    List Char :=
  appendLink 280 pfx postId (twitterTrunc c)

/-- BlueSky leg, artifact removal plus truncation (lines 543-545):
`if len(y) > 300: y = y[0:290] + " ..."`. -/
def bskyTrunc (c : List Char) : List Char :=
  let y := strReplace c artifact []
  if 300 < y.length then y.take 290 ++ " ...".data else y

/-- Full text adaptation of the BlueSky leg (lines 543-549). -/
def bskyAdapterText (c : List Char) (pfx : Option (List Char)) (postId : List Char) :
    List Char :=
  appendLink 300 pfx postId (bskyTrunc c)

/-! ## UTF-8 encoding -/

/-- Number of bytes of the UTF-8 encoding of one code point. -/
def utf8Len (ch : Char) : Nat :=
  if ch.toNat < 128 then 1
  else if ch.toNat < 2048 then 2
  else if ch.toNat < 65536 then 3
  else 4

/-- The UTF-8 bytes of one code point. -/
def utf8Bytes (ch : Char) : List Nat :=
  if ch.toNat < 128 then [ch.toNat]
  else if ch.toNat < 2048 then [192 + ch.toNat / 64, 128 + ch.toNat % 64]
  else if ch.toNat < 65536 then
    [224 + ch.toNat / 4096, 128 + ch.toNat / 64 % 64, 128 + ch.toNat % 64]
  else
    [240 + ch.toNat / 262144, 128 + ch.toNat / 4096 % 64, 128 + ch.toNat / 64 % 64,
      128 + ch.toNat % 64]

/-- `text.encode("UTF-8")` as a list of byte values. -/
def encode : List Char → List Nat
  | [] => []
  | ch :: t => utf8Bytes ch ++ encode t

/-! ## Byte classes used by the compiled patterns -/

/-- Bytes matched by `[a-zA-Z0-9-]` (the handle class of `MENTIONS`). -/
def isHandleByte (b : Nat) : Bool :=
  (65 ≤ b && b ≤ 90) || (97 ≤ b && b ≤ 122) || (48 ≤ b && b ≤ 57) || b == 45

/-- Bytes matched by `\s` in a bytes pattern: space, tab, LF, VT, FF, CR. -/
def isSpaceByte (b : Nat) : Bool :=
  b == 32 || b == 9 || b == 10 || b == 11 || b == 12 || b == 13

/-- Bytes matched by `\d`. -/
def isDigitByte (b : Nat) : Bool := 48 ≤ b && b ≤ 57

/-- Bytes matched by `\w` (word bytes), for `\b` boundaries. -/
def isWordByte (b : Nat) : Bool :=
  (65 ≤ b && b ≤ 90) || (97 ≤ b && b ≤ 122) || (48 ≤ b && b ≤ 57) || b == 95

/-- Number of code points of the Python decoding of a well-formed UTF-8 byte
slice: bytes other than continuation bytes (`0x80`-`0xBF`) each start a code
point, so `len(v)` for the decoded string counts exactly them. -/
def charCount (bs : List Nat) : Nat :=
  (bs.filter (fun b => !(128 ≤ b && b ≤ 191))).length

/-! ## MENTIONS: `@([a-zA-Z0-9-]{0,61})(\s|$)` over the UTF-8 bytes -/

/-- One recorded mention of `BlueSky._prase_mentions`: byte offsets into the
scanned encoding plus the decoded handle (the handle class is pure ASCII). -/
structure RawMention where
  start : Nat
  stop : Nat
  handle : List Char
  deriving DecidableEq, Repr

/-- Match attempt of the `MENTIONS` pattern at byte position `p`, returning the
record built by `_prase_mentions` for it together with the end of the whole
match (`m.end(0)`, where the regex scan resumes).  The handle class and the
whitespace class are disjoint, so the greedy group takes the full run after the
`@`; the run must not exceed 61 and must be followed by a whitespace byte or
the end of the bytes.  The record's start is `m.start(1)` decremented when
positive, exactly as in the script. -/
def mentionAt (bs : List Nat) (p : Nat) : Option (RawMention × Nat) :=
  if bs.get? p = some 64 then
    if ((bs.drop (p + 1)).takeWhile isHandleByte).length ≤ 61 then
      match bs.get? (p + 1 + ((bs.drop (p + 1)).takeWhile isHandleByte).length) with
      | none =>
        some ({ start := if 0 < p + 1 then p + 1 - 1 else p + 1,
                stop := p + 1 + ((bs.drop (p + 1)).takeWhile isHandleByte).length,
                handle := ((bs.drop (p + 1)).takeWhile isHandleByte).map Char.ofNat },
              p + 1 + ((bs.drop (p + 1)).takeWhile isHandleByte).length)
      | some b =>
        if isSpaceByte b then
          some ({ start := if 0 < p + 1 then p + 1 - 1 else p + 1,
                  stop := p + 1 + ((bs.drop (p + 1)).takeWhile isHandleByte).length,
                  handle := ((bs.drop (p + 1)).takeWhile isHandleByte).map Char.ofNat },
                p + 1 + ((bs.drop (p + 1)).takeWhile isHandleByte).length + 1)
        else none
    else none
  else none

/-- `finditer` loop for `MENTIONS`: leftmost matches, resuming after each
match end.  Fuel-based; fuel `bs.length + 1` covers a full scan. -/
def mentionScan : Nat → List Nat → Nat → List RawMention
  | 0, _, _ => []
  | fuel + 1, bs, p =>
    if p < bs.length then
      match mentionAt bs p with
      | some (r, e) => r :: mentionScan fuel bs e
      | none => mentionScan fuel bs (p + 1)
    else []

/-- `BlueSky._prase_mentions(text)` (lines 250-265), scanning the UTF-8 bytes. -/
def prase_mentions (bs : List Nat) : List RawMention :=
  mentionScan (bs.length + 1) bs 0

/-! ## TAGS: `((#[^\d\s]\S*)(?=\s)?)` over the UTF-8 bytes -/

/-- One recorded hashtag: byte offsets plus the tag bytes (hash stripped). -/
structure RawTag where
  start : Nat
  stop : Nat
  tagBytes : List Nat
  deriving DecidableEq, Repr

/-- Match attempt of the `TAGS` pattern at `p`: a `#`, one non-digit non-space
byte, then a greedy run of non-space bytes; the optional lookahead `(?=\s)?` is
zero-width and always succeeds, so the match end is the end of the run. -/
def tagAt (bs : List Nat) (p : Nat) : Option (RawTag × Nat) :=
  if bs.get? p = some 35 then
    match bs.get? (p + 1) with
    | none => none
    | some b =>
      if !(isDigitByte b) && !(isSpaceByte b) then
        some ({ start := p,
                stop := p + 2 + ((bs.drop (p + 2)).takeWhile (fun x => !(isSpaceByte x))).length,
                tagBytes := b :: (bs.drop (p + 2)).takeWhile (fun x => !(isSpaceByte x)) },
              p + 2 + ((bs.drop (p + 2)).takeWhile (fun x => !(isSpaceByte x))).length)
      else none
  else none

/-- `finditer` loop for `TAGS`, with the `len(v) <= 1` skip of
`_parse_tags` applied to the decoded group (the group always holds the `#`
plus at least one more byte, so the skip needs the decoded length). -/
def tagScan : Nat → List Nat → Nat → List RawTag
  | 0, _, _ => []
  | fuel + 1, bs, p =>
    if p < bs.length then
      match tagAt bs p with
      | some (r, e) =>
        if charCount (35 :: r.tagBytes) ≤ 1 then tagScan fuel bs e
        else r :: tagScan fuel bs e
      | none => tagScan fuel bs (p + 1)
    else []

/-- `BlueSky._parse_tags(text)` (lines 233-248), scanning the UTF-8 bytes. -/
def parse_tags (bs : List Nat) : List RawTag :=
  tagScan (bs.length + 1) bs 0

/-! ## URLS pattern over the UTF-8 bytes

`(https?:\/\/(www\.)?[-a-zA-Z0-9@:%._\+~#=]{1,256}\.[a-zA-Z0-9()]{1,6}\b`
`([-a-zA-Z0-9()@:%_\+.~#?&//=]*[-a-zA-Z0-9@%_\+~#//=])?)`

The matcher below reproduces the leftmost greedy backtracking semantics of the
compiled pattern: the `s?` and the `://` are deterministic (`s` and `:` are
distinct bytes), the optional `www.` group is tried first with a fallback, the
`{1,256}` and `{1,6}` counted classes are tried longest first, and the final
optional group is greedy with its star tried longest first. -/

def isAlnumByte (b : Nat) : Bool :=
  (65 ≤ b && b ≤ 90) || (97 ≤ b && b ≤ 122) || (48 ≤ b && b ≤ 57)

/-- The class `[-a-zA-Z0-9@:%._\+~#=]`. -/
def isAByte (b : Nat) : Bool :=
  isAlnumByte b || b == 45 || b == 64 || b == 58 || b == 37 || b == 46 || b == 95 ||
    b == 43 || b == 126 || b == 35 || b == 61

/-- The class `[a-zA-Z0-9()]`. -/
def isBByte (b : Nat) : Bool := isAlnumByte b || b == 40 || b == 41

/-- The class `[-a-zA-Z0-9()@:%_\+.~#?&//=]`. -/
def isCByte (b : Nat) : Bool :=
  isAlnumByte b || b == 45 || b == 40 || b == 41 || b == 64 || b == 58 || b == 37 ||
    b == 95 || b == 43 || b == 46 || b == 126 || b == 35 || b == 63 || b == 38 ||
    b == 47 || b == 61

/-- The class `[-a-zA-Z0-9@%_\+~#//=]`. -/
def isDByte (b : Nat) : Bool :=
  isAlnumByte b || b == 45 || b == 64 || b == 37 || b == 95 || b == 43 || b == 126 ||
    b == 35 || b == 47 || b == 61

/-- `\b` at byte position `i`: the word-ness of the previous byte and of the
current byte differ (positions outside the bytes count as non-word). -/
def wordBoundary (bs : List Nat) (i : Nat) : Bool :=
  let pre := match i with
    | 0 => false
    | j + 1 => ((bs.get? j).map isWordByte).getD false
  let cur := ((bs.get? i).map isWordByte).getD false
  pre != cur

/-- Does the literal byte sequence `lit` occur at position `p`? -/
def bytesAt (bs : List Nat) (p : Nat) (lit : List Nat) : Bool :=
  lit.isPrefixOf (bs.drop p)

/-- Greedy optional tail group `([C]*[D])?` starting at `e0`: the star is
tried longest first over the `C`-run; the group is skipped (zero width) when
no split succeeds.  Returns the final match end. -/
def tailLoop (bs : List Nat) (e0 : Nat) : Nat → Nat
  | 0 => if ((bs.get? e0).map isDByte).getD false then e0 + 1 else e0
  | t + 1 =>
    if ((bs.get? (e0 + t + 1)).map isDByte).getD false then e0 + t + 2
    else tailLoop bs e0 t

/-- Tail group attempt with the star bounded by the `C`-run at `e0`. -/
def tryTail (bs : List Nat) (e0 : Nat) : Nat :=
  tailLoop bs e0 ((bs.drop e0).takeWhile isCByte).length

/-- `[a-zA-Z0-9()]{1,6}\b` then the tail, with the count tried longest first:
`qB` is the position after the dot, and the argument the candidate count. -/
def kLoop (bs : List Nat) (qB : Nat) : Nat → Option Nat
  | 0 => none
  | k + 1 =>
    if wordBoundary bs (qB + k + 1) then some (tryTail bs (qB + k + 1))
    else kLoop bs qB k

/-- `\.[a-zA-Z0-9()]{1,6}\b(...)?` after the `{1,256}` class, with the class
count tried longest first: `q` is the start of the class run, the argument
the candidate count. -/
def jLoop (bs : List Nat) (q : Nat) : Nat → Option Nat
  | 0 => none
  | j + 1 =>
    if bs.get? (q + j + 1) = some 46 then
      match kLoop bs (q + j + 2)
          (min ((bs.drop (q + j + 2)).takeWhile isBByte).length 6) with
      | some e => some e
      | none => jLoop bs q j
    else jLoop bs q j

/-- The part of the pattern after the optional `www.`:
`[-A]{1,256}\.[B]{1,6}\b([C]*[D])?` starting at `q`. -/
def urlCore (bs : List Nat) (q : Nat) : Option Nat :=
  jLoop bs q (min ((bs.drop q).takeWhile isAByte).length 256)

/-- Full match attempt of the `URLS` pattern at `p`, returning `m.end(1)`
(group 1 is the whole pattern).  The `s?` is deterministic (`s` and `:` are
distinct), so the two scheme shapes are laid out as separate branches. -/
def urlAt (bs : List Nat) (p : Nat) : Option Nat :=
  if bytesAt bs p [104, 116, 116, 112] then
    if bs.get? (p + 4) = some 115 then
      if bytesAt bs (p + 5) [58, 47, 47] then
        if bytesAt bs (p + 8) [119, 119, 119, 46] then
          match urlCore bs (p + 12) with
          | some e => some e
          | none => urlCore bs (p + 8)
        else urlCore bs (p + 8)
      else none
    else
      if bytesAt bs (p + 4) [58, 47, 47] then
        if bytesAt bs (p + 7) [119, 119, 119, 46] then
          match urlCore bs (p + 11) with
          | some e => some e
          | none => urlCore bs (p + 7)
        else urlCore bs (p + 7)
      else none
  else none

/-- One recorded link of `BlueSky._parse_urls`: byte offsets plus the URL
bytes. -/
structure RawUrl where
  start : Nat
  stop : Nat
  urlBytes : List Nat
  deriving DecidableEq, Repr

/-- `finditer` loop for `URLS`. -/
def urlScan : Nat → List Nat → Nat → List RawUrl
  | 0, _, _ => []
  | fuel + 1, bs, p =>
    if p < bs.length then
      match urlAt bs p with
      | some e =>
        { start := p, stop := e, urlBytes := (bs.drop p).take (e - p) } ::
          urlScan fuel bs e
      | none => urlScan fuel bs (p + 1)
    else []

/-- `BlueSky._parse_urls(text)` (lines 220-231), scanning the UTF-8 bytes. -/
def parse_urls (bs : List Nat) : List RawUrl :=
  urlScan (bs.length + 1) bs 0

/-! ## Mention resolution (`BlueSky._find_user`, lines 267-300) -/

/-- Abstracted response of the exact handle-resolution endpoint
(`com.atproto.identity.resolveHandle`): HTTP status plus the `"did"` field of
the JSON body when present. -/
structure ResolveResp where
  status : Nat
  did : Option (List Char)
  deriving DecidableEq, Repr

/-- One candidate of the actor-search response: its `"did"` and `"handle"`
fields when present. -/
structure Actor where
  did : Option (List Char)
  handle : Option (List Char)
  deriving DecidableEq, Repr

/-- Abstracted response of the fallback search endpoint
(`app.bsky.actor.searchActors`): HTTP status plus the `"actors"` field when it
is a list. -/
structure SearchResp where
  status : Nat
  actors : Option (List Actor)
  deriving DecidableEq, Repr

/-- ASCII lower-casing of one code point (`str.lower` on the handle data the
script manipulates). -/
def lowerChar (ch : Char) : Char :=
  if 65 ≤ ch.toNat ∧ ch.toNat ≤ 90 then Char.ofNat (ch.toNat + 32) else ch

def lowerStr (s : List Char) : List Char := s.map lowerChar

/-- The query string of the exact lookup: the script always appends the fixed
suffix, `params={"handle": f"{name}.bsky.social"}`. -/
def exactQuery (name : List Char) : List Char := name ++ ".bsky.social".data

/-- The candidate loop of `_find_user`: skip candidates missing `"did"` or
`"handle"`, return the `"did"` of the first whose handle case-insensitively
starts with the queried name. -/
def searchLoop (name : List Char) : List Actor → Option (List Char)
  | [] => none
  | a :: t =>
    match a.did, a.handle with
    | some d, some h =>
      if (lowerStr name).isPrefixOf (lowerStr h) then some d else searchLoop name t
    | _, _ => searchLoop name t

/-- The fallback branch of `_find_user` (lines 281-300): a non-200 status, a
missing or non-list `"actors"` field, or an empty list yield `None`; otherwise
the candidate loop runs. -/
def searchFallback (search : List Char → SearchResp) (name : List Char) :
    Option (List Char) :=
  let s := search name
  if s.status ≠ 200 then none
  else
    match s.actors with
    | none => none
    | some l => if l.length = 0 then none else searchLoop name l

/-- The exact-lookup branch of `_find_user` (lines 268-280): the returned
`"did"` when the response has status 200 and carries one, `none` otherwise. -/
def exactHit (resolve : List Char → ResolveResp) (name : List Char) :
    Option (List Char) :=
  let r := resolve (exactQuery name)
  if r.status = 200 then r.did else none

/-- Does this search candidate qualify: both fields present and its handle
case-insensitively starting with the queried name? -/
def qualifies (name : List Char) (a : Actor) : Bool :=
  match a.did, a.handle with
  | some _, some h => (lowerStr name).isPrefixOf (lowerStr h)
  | _, _ => false

/-- `BlueSky._find_user(name)`: the exact lookup at `exactQuery name` wins when
it has status 200 and a `"did"` field; otherwise the fallback search runs. -/
def find_user (resolve : List Char → ResolveResp) (search : List Char → SearchResp)
    (name : List Char) : Option (List Char) :=
  match exactHit resolve name with
  | some d => some d
  | none => searchFallback search name

/-! ## Facets and the BlueSky post record -/

inductive FacetFeature where
  | mention (did : List Char)
  | link (uriBytes : List Nat)
  | tag (tagBytes : List Nat)
  deriving DecidableEq, Repr

/-- One facet of the outgoing record: a byte range over the UTF-8 encoding of
the posted text plus the feature payload. -/
structure Facet where
  byteStart : Nat
  byteEnd : Nat
  feature : FacetFeature
  deriving DecidableEq, Repr

/-- `BlueSky._prase_facets(text)` (lines 331-382): mention facets for the
resolvable mentions (unresolvable ones are skipped), then link facets, then
tag facets, all over the UTF-8 bytes of `text`. -/
def prase_facets (resolve : List Char → ResolveResp) (search : List Char → SearchResp)
    (text : List Char) : List Facet :=
  let bs := encode text
  ((prase_mentions bs).filterMap fun m =>
    (find_user resolve search m.handle).map fun d =>
      { byteStart := m.start, byteEnd := m.stop, feature := FacetFeature.mention d })
  ++ (parse_urls bs).map (fun u =>
      { byteStart := u.start, byteEnd := u.stop, feature := FacetFeature.link u.urlBytes })
  ++ (parse_tags bs).map (fun t =>
      { byteStart := t.start, byteEnd := t.stop, feature := FacetFeature.tag t.tagBytes })

/-- The parts of the record built by `BlueSky.post(text)` (lines 393-399) the
claims are about: the transmitted text and its facets, the facets computed by
`_prase_facets` on exactly the text placed in the record. -/
structure PostRecord where
  text : List Char
  facets : List Facet
  deriving DecidableEq, Repr

def bskyPostRecord (resolve : List Char → ResolveResp) (search : List Char → SearchResp)
    (text : List Char) : PostRecord :=
  { text := text, facets := prase_facets resolve search text }

/-! ## The dispatcher (`CrossPoster.on_update`, lines 490-568)

`on_update` is modelled as a pure function from the incoming status event to
the ordered list of externally visible actions it performs.  External
collaborators are abstracted into an environment: the per-attachment download
outcome, the two optional platform adapters (returning the platform post id,
or `none` when the call raises), and the HTML sanitizer
(`BeautifulSoup(...).text`, an external library call). -/

/-- Externally visible actions of one dispatch, in order. -/
inductive Effect where
  | received
  | download (url : List Char)
  | fetchFailed
  | sanitized
  | twitterPost (text : List Char) (media : Option (List (List Char)))
  | tweetOk (id : List Char)
  | tweetFail
  | bskyPost (text : List Char) (media : Option (List (List Char)))
  | skeetOk (id : List Char)
  | skeetFail
  | removeFile (path : List Char)
  deriving DecidableEq, Repr

/-- The fields of the incoming status event the dispatcher reads.  `Option`
fields model JSON `null` (for the reply fields) or an absent key (for
`reblogged`, `reblog`, `content`, `media_attachments`); `reblog` is
`some (some ())` when the key is present and non-null. -/
structure Status where
  postIdStr : List Char
  accountId : Nat
  visibility : List Char
  reblogged : Option Bool
  inReplyToId : Option Nat
  inReplyToAccountId : Option Nat
  reblog : Option (Option Unit)
  content : Option (List Char)
  mediaAttachments : Option (List (List Char))
  deriving DecidableEq, Repr

/-- One platform adapter's `post(text, media)` call: `some id` on success,
`none` when it raises. -/
def Adapter := List Char → Option (List (List Char)) → Option (List Char)

/-- The dispatcher environment: configured account id, optional adapters,
optional link base, replace map, sanitizer, and per-attachment download
outcomes (`none` = the download raises `OSError`). -/
structure Env where
  uid : Nat
  twitter : Option Adapter
  bluesky : Option Adapter
  pfx : Option (List Char)
  replaceMap : List (List Char × List Char)
  sanitize : List Char → List Char
  fetch : Nat → List Char → Option (List Char)

/-- Result of `_get_media`: `none` from an empty or missing attachment list,
a path list otherwise, or an `OSError` escaping to the caller. -/
inductive FetchResult where
  | err
  | noMedia
  | media (paths : List (List Char))
  deriving DecidableEq, Repr

/-- The download loop of `_get_media` (lines 110-117): one blocking download
per attachment, in order; a failure aborts the loop with the paths fetched so
far lost.  Returns the attempted-download trace and the outcome. -/
def getMediaLoop (fetch : Nat → List Char → Option (List Char)) :
    List (List Char) → Nat → List Effect × Option (List (List Char))
  | [], _ => ([], some [])
  | u :: rest, i =>
    match fetch i u with
    | none => ([Effect.download u], none)
    | some path =>
      let r := getMediaLoop fetch rest (i + 1)
      (Effect.download u :: r.1, r.2.map (path :: ·))

/-- `_get_media(x.get("media_attachments"))` (lines 107-117). -/
def get_media (fetch : Nat → List Char → Option (List Char))
    (atts : Option (List (List Char))) : List Effect × FetchResult :=
  match atts with
  | none => ([], FetchResult.noMedia)
  | some [] => ([], FetchResult.noMedia)
  | some urls =>
    let r := getMediaLoop fetch urls 0
    (r.1, match r.2 with
          | none => FetchResult.err
          | some paths => FetchResult.media paths)

/-- The Twitter leg (lines 526-541): adapt the text, call `post`, catch any
exception. -/
def twitterLeg (tw : Option Adapter) (pfx : Option (List Char)) (pid : List Char)
    (c : List Char) (m : Option (List (List Char))) : List Effect :=
  match tw with
  | none => []
  | some f =>
    let y := twitterAdapterText c pfx pid
    Effect.twitterPost y m ::
      (match f y m with
       | some t => [Effect.tweetOk t]
       | none => [Effect.tweetFail])

/-- The BlueSky leg (lines 542-556): adapt the text, call `post`, catch any
exception. -/
def blueskyLeg (bsky : Option Adapter) (pfx : Option (List Char)) (pid : List Char)
    (c : List Char) (m : Option (List (List Char))) : List Effect :=
  match bsky with
  | none => []
  | some f =>
    let y := bskyAdapterText c pfx pid
    Effect.bskyPost y m ::
      (match f y m with
       | some t => [Effect.skeetOk t]
       | none => [Effect.skeetFail])

/-- The cleanup loop (lines 558-568): skipped when `m` is not a non-empty
list; otherwise one removal attempt per downloaded file (failures only
logged). -/
def cleanupEffects (m : Option (List (List Char))) : List Effect :=
  match m with
  | none => []
  | some l => if l.length = 0 then [] else l.map Effect.removeFile

/-- Does the event carry a non-null `reblog` object? -/
def hasReblogObj : Option (Option Unit) → Bool
  | some (some _) => true
  | _ => false

/-- `CrossPoster.on_update(x)` as an effect trace (lines 490-568): the filter
guards in source order, then the media fetch (an `OSError` makes the handler
return right after reporting, lines 504-510), then sanitization (HTML
normalization via the external parser, then the replace map), then the two
adapter legs, then cleanup. -/
def on_update (env : Env) (x : Status) : List Effect :=
  if env.twitter.isNone && env.bluesky.isNone then []
  else if x.accountId ≠ env.uid then []
  else if x.visibility ≠ "public".data ∨ x.reblogged = some true then []
  else if x.inReplyToId.isSome ∨ x.inReplyToAccountId.isSome then []
  else if hasReblogObj x.reblog then []
  else if x.content.getD [] = [] then []
  else
    let fr := get_media env.fetch x.mediaAttachments
    Effect.received :: fr.1 ++
      match fr.2 with
      | FetchResult.err => [Effect.fetchFailed]
      | FetchResult.noMedia =>
        let c := applyReplace (env.sanitize (x.content.getD [])) env.replaceMap
        Effect.sanitized ::
          (twitterLeg env.twitter env.pfx x.postIdStr c none ++
           blueskyLeg env.bluesky env.pfx x.postIdStr c none ++
           cleanupEffects none)
      | FetchResult.media paths =>
        let c := applyReplace (env.sanitize (x.content.getD [])) env.replaceMap
        Effect.sanitized ::
          (twitterLeg env.twitter env.pfx x.postIdStr c (some paths) ++
           blueskyLeg env.bluesky env.pfx x.postIdStr c (some paths) ++
           cleanupEffects (some paths))

/-- The acceptance condition of the event filter (lines 493-501), as the spec
states it: matching author, public visibility, not marked reblogged, no reply
targets, no reblog object, non-empty content. -/
def filterOk (uid : Nat) (x : Status) : Prop :=
  x.accountId = uid ∧ x.visibility = "public".data ∧ x.reblogged ≠ some true ∧
    x.inReplyToId = none ∧ x.inReplyToAccountId = none ∧
    ¬ hasReblogObj x.reblog ∧ x.content.getD [] ≠ []

instance (uid : Nat) (x : Status) : Decidable (filterOk uid x) := by
  unfold filterOk; infer_instance

/-! ## Concrete instances used to evaluate the model at specific inputs -/

/-- Is this effect a temp-file removal or a platform post attempt? -/
def isRemoveOrPost : Effect → Bool
  | Effect.removeFile _ => true
  | Effect.twitterPost _ _ => true
  | Effect.bskyPost _ _ => true
  | _ => false

/-- Environment whose second media download raises `OSError`. -/
def env6 : Env :=
  { uid := 1
    twitter := some fun _ _ => some "9".data
    bluesky := some fun _ _ => some "9".data
    pfx := none
    replaceMap := []
    sanitize := id
    fetch := fun i _ => if i = 1 then none else some ("f".data ++ [Char.ofNat (48 + i)]) }

/-- A public original post with three media attachments. -/
def x6 : Status :=
  { postIdStr := "7".data
    accountId := 1
    visibility := "public".data
    reblogged := none
    inReplyToId := none
    inReplyToAccountId := none
    reblog := none
    content := some "Hello".data
    mediaAttachments := some ["u0".data, "u1".data, "u2".data] }

/-- A Twitter adapter whose `post` always raises. -/
def tw7 : Adapter := fun _ _ => none

/-- A BlueSky adapter whose `post` succeeds. -/
def bsk7 : Adapter := fun _ _ => some "c1".data

/-- Environment with both platforms configured and downloads succeeding. -/
def env7 : Env :=
  { uid := 2
    twitter := some tw7
    bluesky := some bsk7
    pfx := none
    replaceMap := []
    sanitize := id
    fetch := fun _ _ => some "f0".data }

/-- A public original post with one media attachment. -/
def x7 : Status :=
  { postIdStr := "8".data
    accountId := 2
    visibility := "public".data
    reblogged := some false
    inReplyToId := none
    inReplyToAccountId := none
    reblog := some none
    content := some "Hi".data
    mediaAttachments := some ["u".data] }

/-- Environment with only the Twitter platform configured. -/
def env5 : Env :=
  { uid := 3
    twitter := some fun _ _ => some "9".data
    bluesky := none
    pfx := none
    replaceMap := []
    sanitize := id
    fetch := fun _ _ => some "f".data }

/-- A reply event: `in_reply_to_id` is non-null. -/
def x5 : Status :=
  { postIdStr := "4".data
    accountId := 3
    visibility := "public".data
    reblogged := none
    inReplyToId := some 9
    inReplyToAccountId := none
    reblog := none
    content := some "Re".data
    mediaAttachments := none }

/-- A resolver that answers every handle with status 200 and a fixed did. -/
def r1 : List Char → ResolveResp := fun _ => { status := 200, did := some "did:plc:b".data }

/-- A search endpoint with no candidates. -/
def s1 : List Char → SearchResp := fun _ => { status := 200, actors := some [] }

/-- A resolver that always fails (status 500). -/
def resolve4 : List Char → ResolveResp := fun _ => { status := 500, did := none }

/-- A candidate missing its handle field. -/
def actor4a : Actor := { did := some "d0".data, handle := none }

/-- A qualifying candidate: handle `Bobcat` case-insensitively starts with
`bob`. -/
def actor4b : Actor := { did := some "d1".data, handle := some "Bobcat".data }

/-- A search endpoint returning the two candidates above. -/
def search4 : List Char → SearchResp :=
  fun _ => { status := 200, actors := some [actor4a, actor4b] }

/-- A resolver that answers 404 for every handle. -/
def resolve10 : List Char → ResolveResp := fun _ => { status := 404, did := none }

/-- A search endpoint with an empty candidate list. -/
def search10 : List Char → SearchResp := fun _ => { status := 200, actors := some [] }

/-! ## Basic lemmas -/

/-- Replacing by the empty string never lengthens the text. -/
theorem pyReplace_nil_length_le (fuel : Nat) :
    ∀ s old : List Char, (pyReplace fuel s old []).length ≤ s.length := by
  induction fuel with
  | zero => intro s old; simp [pyReplace]
  | succ n ih =>
    intro s old
    match s with
    | [] => simp [pyReplace]
    | a :: t =>
      simp only [pyReplace]
      split
      · calc (pyReplace n ((a :: t).drop old.length) old []).length
            ≤ ((a :: t).drop old.length).length := by
              simpa using ih ((a :: t).drop old.length) old
          _ ≤ (a :: t).length := by simp [List.length_drop]
      · simpa using ih t old

theorem strReplace_nil_length_le (s old : List Char) :
    (strReplace s old []).length ≤ s.length :=
  pyReplace_nil_length_le s.length s old

theorem utf8Bytes_length (ch : Char) : (utf8Bytes ch).length = utf8Len ch := by
  unfold utf8Bytes utf8Len
  by_cases h1 : ch.toNat < 128
  · simp [h1]
  · by_cases h2 : ch.toNat < 2048
    · simp [h1, h2]
    · by_cases h3 : ch.toNat < 65536
      · simp [h1, h2, h3]
      · simp [h1, h2, h3]

theorem utf8Len_pos (ch : Char) : 1 ≤ utf8Len ch := by
  unfold utf8Len; split_ifs <;> omega

/-- Every byte of a multi-byte UTF-8 encoding is at least `0x80`: the lead
byte starts with bits `11`, continuation bytes with `10`. -/
theorem utf8Bytes_multibyte_ge (ch : Char) (h : 2 ≤ utf8Len ch) :
    ∀ b ∈ utf8Bytes ch, 128 ≤ b := by
  intro b hb
  unfold utf8Bytes at hb
  by_cases h1 : ch.toNat < 128
  · unfold utf8Len at h; rw [if_pos h1] at h; omega
  · rw [if_neg h1] at hb
    by_cases h2 : ch.toNat < 2048
    · rw [if_pos h2] at hb; simp at hb; rcases hb with rfl | rfl <;> omega
    · rw [if_neg h2] at hb
      by_cases h3 : ch.toNat < 65536
      · rw [if_pos h3] at hb; simp at hb; rcases hb with rfl | rfl | rfl <;> omega
      · rw [if_neg h3] at hb; simp at hb; rcases hb with rfl | rfl | rfl | rfl <;> omega

theorem encode_append (a b : List Char) : encode (a ++ b) = encode a ++ encode b := by
  induction a with
  | nil => simp [encode]
  | cons ch t ih => simp [encode, ih]

/-- A byte below `0x80` inside the UTF-8 encoding of a text sits on a code
point boundary: it is the encoded length of some character-count `i` of code
points, every one of which occupies at least one byte — so `i ≤ b`, strictly
when any of those code points is multi-byte. -/
theorem ascii_byte_boundary (s : List Char) :
    ∀ b v : Nat, (encode s).get? b = some v → v < 128 →
      ∃ i, i ≤ s.length ∧ (encode (s.take i)).length = b ∧ i ≤ b ∧
        ((∃ ch ∈ s.take i, 2 ≤ utf8Len ch) → i < b) := by
  induction s with
  | nil => intro b v hb _; simp [encode] at hb
  | cons ch t ih =>
    intro b v hb hv
    by_cases hlt : b < (utf8Bytes ch).length
    · -- the byte belongs to the first code point, which must be single-byte
      have hbyte : (utf8Bytes ch).get? b = some v := by
        rw [encode, List.get?_append hlt] at hb; exact hb
      have hmem : v ∈ utf8Bytes ch := List.get?_mem hbyte
      by_cases hm : 2 ≤ utf8Len ch
      · exact absurd hv (by simpa using utf8Bytes_multibyte_ge ch hm v hmem)
      · have h1 : utf8Len ch = 1 := by have := utf8Len_pos ch; omega
        have hb0 : b = 0 := by rw [utf8Bytes_length, h1] at hlt; omega
        exact ⟨0, by simp, by simp [encode, hb0], by omega, by simp⟩
    · -- the byte belongs to the tail
      push_neg at hlt
      have hb' : (encode t).get? (b - (utf8Bytes ch).length) = some v := by
        rw [encode, List.get?_append_right hlt] at hb; exact hb
      obtain ⟨i, hi_le, hi_len, hi_b, hi_strict⟩ := ih (b - (utf8Bytes ch).length) v hb' hv
      have hlen1 : 1 ≤ (utf8Bytes ch).length := by
        rw [utf8Bytes_length]; exact utf8Len_pos ch
      refine ⟨i + 1, by simpa using hi_le, ?_, by omega, ?_⟩
      · have : encode ((ch :: t).take (i + 1)) = utf8Bytes ch ++ encode (t.take i) := by
          simp [encode]
        rw [this, List.length_append, hi_len]; omega
      · rintro ⟨c, hc_mem, hc_multi⟩
        rcases (by simpa using hc_mem : c = ch ∨ c ∈ t.take i) with rfl | hc_t
        · have : 2 ≤ (utf8Bytes c).length := by rw [utf8Bytes_length]; exact hc_multi
          omega
        · have := hi_strict ⟨c, hc_t, hc_multi⟩; omega

theorem get?_some_lt {α : Type} {l : List α} {n : Nat} {a : α}
    (h : l.get? n = some a) : n < l.length := by
  by_contra hn
  rw [List.get?_eq_none.mpr (le_of_not_lt hn)] at h
  exact Option.noConfusion h

theorem takeWhile_length_le {α : Type} (p : α → Bool) (l : List α) :
    (l.takeWhile p).length ≤ l.length := by
  induction l with
  | nil => simp [List.takeWhile]
  | cons a t ih =>
    cases h : p a
    · simp [List.takeWhile, h]
    · simp [List.takeWhile, h]; omega

/-- Shape of a successful `MENTIONS` match: the record's start is exactly the
byte position of the `@` (the decrement always fires because `m.start(1)` is
always positive), the handle is the full run after the `@`, and the group end
stays within the bytes. -/
theorem mentionAt_spec {bs : List Nat} {p : Nat} {r : RawMention} {e : Nat}
    (h : mentionAt bs p = some (r, e)) :
    r.start = p ∧ bs.get? p = some 64 ∧
    r.handle = ((bs.drop (p + 1)).takeWhile isHandleByte).map Char.ofNat ∧
    r.stop = p + 1 + ((bs.drop (p + 1)).takeWhile isHandleByte).length ∧
    r.stop ≤ bs.length ∧ p < e := by
  unfold mentionAt at h
  split at h
  case isTrue h64 =>
    have hplt : p < bs.length := get?_some_lt h64
    have hrun : ((bs.drop (p + 1)).takeWhile isHandleByte).length ≤ bs.length - (p + 1) := by
      calc ((bs.drop (p + 1)).takeWhile isHandleByte).length
          ≤ (bs.drop (p + 1)).length := takeWhile_length_le _ _
        _ = bs.length - (p + 1) := List.length_drop _ _
    split at h
    case isTrue hlen =>
      split at h
      case h_1 hg =>
        cases h
        refine ⟨by simp, h64, by simp, by simp, by (try simp); omega, by (try simp); omega⟩
      case h_2 b hg =>
        split at h
        case isTrue hsp =>
          cases h
          refine ⟨by simp, h64, by simp, by simp, by (try simp); omega, by (try simp); omega⟩
        case isFalse hsp => exact Option.noConfusion h
    case isFalse hlen => exact Option.noConfusion h
  case isFalse h64 => exact Option.noConfusion h

/-- Every record of the `MENTIONS` scan points at an `@` byte, has a
non-trivial in-bounds byte range, and carries the raw handle after the `@`. -/
theorem mentionScan_props (fuel : Nat) :
    ∀ (bs : List Nat) (p : Nat), ∀ r ∈ mentionScan fuel bs p,
      bs.get? r.start = some 64 ∧ r.start < r.stop ∧ r.stop ≤ bs.length ∧
      r.handle = ((bs.drop (r.start + 1)).takeWhile isHandleByte).map Char.ofNat := by
  induction fuel with
  | zero => intro bs p r hr; simp [mentionScan] at hr
  | succ n ih =>
    intro bs p r hr
    unfold mentionScan at hr
    split at hr
    · rcases hm : mentionAt bs p with _ | ⟨r', e⟩
      · rw [hm] at hr; exact ih bs (p + 1) r hr
      · rw [hm] at hr
        rcases List.mem_cons.mp hr with rfl | hr'
        · obtain ⟨hstart, h64, hhandle, hstop, hle, _⟩ := mentionAt_spec hm
          refine ⟨by rw [hstart]; exact h64, by omega, hle, by rw [hstart]; exact hhandle⟩
        · exact ih bs e r hr'
    · simp at hr

theorem prase_mentions_props (bs : List Nat) :
    ∀ r ∈ prase_mentions bs,
      bs.get? r.start = some 64 ∧ r.start < r.stop ∧ r.stop ≤ bs.length ∧
      r.handle = ((bs.drop (r.start + 1)).takeWhile isHandleByte).map Char.ofNat :=
  mentionScan_props (bs.length + 1) bs 0

/-- Shape of a successful `TAGS` match. -/
theorem tagAt_spec {bs : List Nat} {p : Nat} {r : RawTag} {e : Nat}
    (h : tagAt bs p = some (r, e)) :
    r.start = p ∧ bs.get? p = some 35 ∧ r.start < r.stop ∧ r.stop ≤ bs.length ∧ p < e := by
  unfold tagAt at h
  split at h
  case isTrue h35 =>
    split at h
    case h_1 => exact Option.noConfusion h
    case h_2 b hb =>
      have hlt : p + 1 < bs.length := get?_some_lt hb
      have hrun :
          ((bs.drop (p + 2)).takeWhile (fun x => !(isSpaceByte x))).length ≤
            bs.length - (p + 2) := by
        calc ((bs.drop (p + 2)).takeWhile (fun x => !(isSpaceByte x))).length
            ≤ (bs.drop (p + 2)).length := takeWhile_length_le _ _
          _ = bs.length - (p + 2) := List.length_drop _ _
      split at h
      case isTrue hcls =>
        cases h
        exact ⟨by simp, h35, by (try simp); omega, by (try simp); omega, by (try simp); omega⟩
      case isFalse => exact Option.noConfusion h
  case isFalse => exact Option.noConfusion h

theorem tagScan_props (fuel : Nat) :
    ∀ (bs : List Nat) (p : Nat), ∀ r ∈ tagScan fuel bs p,
      bs.get? r.start = some 35 ∧ r.start < r.stop ∧ r.stop ≤ bs.length := by
  induction fuel with
  | zero => intro bs p r hr; simp [tagScan] at hr
  | succ n ih =>
    intro bs p r hr
    unfold tagScan at hr
    split at hr
    · rcases hm : tagAt bs p with _ | ⟨r', e⟩
      · rw [hm] at hr; exact ih bs (p + 1) r hr
      · rw [hm] at hr
        have hr2 : r ∈ (if charCount (35 :: r'.tagBytes) ≤ 1 then tagScan n bs e
            else r' :: tagScan n bs e) := hr
        by_cases hcc : charCount (35 :: r'.tagBytes) ≤ 1
        · rw [if_pos hcc] at hr2; exact ih bs e r hr2
        · rw [if_neg hcc] at hr2
          rcases List.mem_cons.mp hr2 with rfl | hr'
          · obtain ⟨hstart, h35, hlt, hle, _⟩ := tagAt_spec hm
            exact ⟨by rw [hstart]; exact h35, hlt, hle⟩
          · exact ih bs e r hr'
    · simp at hr

theorem parse_tags_props (bs : List Nat) :
    ∀ r ∈ parse_tags bs,
      bs.get? r.start = some 35 ∧ r.start < r.stop ∧ r.stop ≤ bs.length :=
  tagScan_props (bs.length + 1) bs 0

/-- `tailLoop` never moves backwards. -/
theorem tailLoop_ge (bs : List Nat) (e0 : Nat) :
    ∀ t, e0 ≤ tailLoop bs e0 t := by
  intro t
  induction t with
  | zero => unfold tailLoop; split <;> omega
  | succ t ih => unfold tailLoop; split
                 · omega
                 · exact ih

/-- `tailLoop` stays within the bytes. -/
theorem tailLoop_le (bs : List Nat) (e0 : Nat) (he : e0 ≤ bs.length) :
    ∀ t, tailLoop bs e0 t ≤ bs.length := by
  intro t
  induction t with
  | zero =>
    unfold tailLoop; split
    case isTrue hd =>
      rcases hx : bs.get? e0 with _ | b
      · rw [hx] at hd; simp at hd
      · have := get?_some_lt hx; omega
    case isFalse => omega
  | succ t ih =>
    unfold tailLoop; split
    case isTrue hd =>
      rcases hx : bs.get? (e0 + t + 1) with _ | b
      · rw [hx] at hd; simp at hd
      · have := get?_some_lt hx; omega
    case isFalse => exact ih

/-- A successful `kLoop` result lies strictly after the class start and within
the bytes, provided the candidate count is within the remaining bytes. -/
theorem kLoop_spec (bs : List Nat) (qB : Nat) :
    ∀ k, qB + k ≤ bs.length → ∀ e, kLoop bs qB k = some e →
      qB < e ∧ e ≤ bs.length := by
  intro k
  induction k with
  | zero => intro _ e h; exact Option.noConfusion h
  | succ k ih =>
    intro hk e h
    unfold kLoop at h
    split at h
    · cases h
      constructor
      · calc qB < qB + k + 1 := by omega
          _ ≤ tailLoop bs (qB + k + 1) _ := tailLoop_ge _ _ _
      · exact tailLoop_le bs (qB + k + 1) (by omega) _
    · exact ih (by omega) e h

/-- A successful `jLoop` result lies strictly after the class start and within
the bytes. -/
theorem jLoop_spec (bs : List Nat) (q : Nat) :
    ∀ j e, jLoop bs q j = some e → q < e ∧ e ≤ bs.length := by
  intro j
  induction j with
  | zero => intro e h; exact Option.noConfusion h
  | succ j ih =>
    intro e h
    unfold jLoop at h
    split at h
    case isTrue hdot =>
      have hqlt : q + j + 1 < bs.length := get?_some_lt hdot
      have hrun1 : ((bs.drop (q + j + 2)).takeWhile isBByte).length ≤
          (bs.drop (q + j + 2)).length := takeWhile_length_le _ _
      have hrun2 : (bs.drop (q + j + 2)).length = bs.length - (q + j + 2) :=
        List.length_drop _ _
      rcases hk : kLoop bs (q + j + 2)
          (min ((bs.drop (q + j + 2)).takeWhile isBByte).length 6) with _ | e1
      · rw [hk] at h; exact ih e h
      · rw [hk] at h
        have h2 : (some e1 : Option Nat) = some e := h
        cases h2
        have := kLoop_spec bs (q + j + 2) _ (by omega) _ hk
        omega
    case isFalse => exact ih e h

/-- A successful `URLS` match end lies strictly after the match start and
within the bytes. -/
theorem urlAt_spec {bs : List Nat} {p : Nat} {e : Nat} (h : urlAt bs p = some e) :
    p < e ∧ e ≤ bs.length := by
  have hcore : ∀ q e', p ≤ q → urlCore bs q = some e' → p < e' ∧ e' ≤ bs.length := by
    intro q e' hq hc
    have := jLoop_spec bs q _ e' hc
    omega
  unfold urlAt at h
  split at h
  case isTrue =>
    split at h
    case isTrue =>
      split at h
      case isTrue =>
        split at h
        case isTrue =>
          rcases hc : urlCore bs (p + 12) with _ | e1
          · rw [hc] at h; exact hcore _ _ (by omega) h
          · rw [hc] at h
            have h2 : (some e1 : Option Nat) = some e := h
            cases h2; exact hcore _ _ (by omega) hc
        case isFalse => exact hcore _ _ (by omega) h
      case isFalse => exact Option.noConfusion h
    case isFalse =>
      split at h
      case isTrue =>
        split at h
        case isTrue =>
          rcases hc : urlCore bs (p + 11) with _ | e1
          · rw [hc] at h; exact hcore _ _ (by omega) h
          · rw [hc] at h
            have h2 : (some e1 : Option Nat) = some e := h
            cases h2; exact hcore _ _ (by omega) hc
        case isFalse => exact hcore _ _ (by omega) h
      case isFalse => exact Option.noConfusion h
  case isFalse => exact Option.noConfusion h

theorem urlScan_props (fuel : Nat) :
    ∀ (bs : List Nat) (p : Nat), ∀ r ∈ urlScan fuel bs p,
      r.start < r.stop ∧ r.stop ≤ bs.length := by
  induction fuel with
  | zero => intro bs p r hr; simp [urlScan] at hr
  | succ n ih =>
    intro bs p r hr
    unfold urlScan at hr
    split at hr
    · rcases hm : urlAt bs p with _ | e
      · rw [hm] at hr; exact ih bs (p + 1) r hr
      · rw [hm] at hr
        rcases List.mem_cons.mp hr with rfl | hr'
        · have := urlAt_spec hm; exact ⟨this.1, this.2⟩
        · exact ih bs e r hr'
    · simp at hr

theorem parse_urls_props (bs : List Nat) :
    ∀ r ∈ parse_urls bs, r.start < r.stop ∧ r.stop ≤ bs.length :=
  urlScan_props (bs.length + 1) bs 0

/-- Anatomy of every facet `_prase_facets` emits for a text `y`: a non-empty
byte range within the UTF-8 encoding of `y`; and every mention facet points at
an `@` byte and originates from a parsed mention whose handle resolved. -/
theorem prase_facets_anatomy (resolve : List Char → ResolveResp)
    (search : List Char → SearchResp) (y : List Char) :
    ∀ f ∈ prase_facets resolve search y,
      f.byteStart < f.byteEnd ∧ f.byteEnd ≤ (encode y).length ∧
      ∀ did, f.feature = FacetFeature.mention did →
        (encode y).get? f.byteStart = some 64 ∧
        ∃ m ∈ prase_mentions (encode y), f.byteStart = m.start ∧ f.byteEnd = m.stop ∧
          find_user resolve search m.handle = some did := by
  intro f hf
  simp only [prase_facets] at hf
  rcases List.mem_append.mp hf with hf' | hf'
  · rcases List.mem_append.mp hf' with hmen | hurl
    · -- mention facet
      obtain ⟨m, hm_mem, hm_eq⟩ := List.mem_filterMap.mp hmen
      obtain ⟨d, hd, hfd⟩ := Option.map_eq_some'.mp hm_eq
      obtain ⟨h64, hlt, hle, _⟩ := prase_mentions_props (encode y) m hm_mem
      subst hfd
      refine ⟨hlt, hle, ?_⟩
      intro did hdid
      cases hdid
      exact ⟨h64, m, hm_mem, rfl, rfl, hd⟩
    · -- link facet
      obtain ⟨u, hu_mem, hu_eq⟩ := List.mem_map.mp hurl
      obtain ⟨hlt, hle⟩ := parse_urls_props (encode y) u hu_mem
      subst hu_eq
      exact ⟨hlt, hle, fun did hdid => FacetFeature.noConfusion hdid⟩
  · -- tag facet
    obtain ⟨t, ht_mem, ht_eq⟩ := List.mem_map.mp hf'
    obtain ⟨_, hlt, hle⟩ := parse_tags_props (encode y) t ht_mem
    subst ht_eq
    exact ⟨hlt, hle, fun did hdid => FacetFeature.noConfusion hdid⟩

/-- The candidate loop returns `None` when no candidate qualifies. -/
theorem searchLoop_eq_none (name : List Char) :
    ∀ l : List Actor, (∀ a ∈ l, qualifies name a = false) → searchLoop name l = none := by
  intro l
  induction l with
  | nil => intro _; rfl
  | cons a t ih =>
    intro h
    have ha := h a (List.mem_cons_self a t)
    have ht := fun b hb => h b (List.mem_cons_of_mem a hb)
    unfold searchLoop
    unfold qualifies at ha
    rcases hd : a.did with _ | d <;> rcases hh : a.handle with _ | hdl
    · exact ih ht
    · exact ih ht
    · exact ih ht
    · rw [hd, hh] at ha
      have ha' : (lowerStr name).isPrefixOf (lowerStr hdl) = false := ha
      show (if (lowerStr name).isPrefixOf (lowerStr hdl) = true then some d
          else searchLoop name t) = none
      rw [if_neg (by simp [ha'])]
      exact ih ht

/-- The candidate loop returns the `"did"` of the first qualifying candidate. -/
theorem searchLoop_first (name : List Char) :
    ∀ (l₁ : List Actor) (a : Actor) (l₂ : List Actor) (d h : List Char),
      (∀ b ∈ l₁, qualifies name b = false) →
      a.did = some d → a.handle = some h →
      (lowerStr name).isPrefixOf (lowerStr h) = true →
      searchLoop name (l₁ ++ a :: l₂) = some d := by
  intro l₁
  induction l₁ with
  | nil =>
    intro a l₂ d h _ hd hh hpre
    show searchLoop name (a :: l₂) = some d
    unfold searchLoop
    rw [hd, hh]
    show (if (lowerStr name).isPrefixOf (lowerStr h) = true then some d
        else searchLoop name l₂) = some d
    rw [if_pos hpre]
  | cons b t ih =>
    intro a l₂ d h hq hd hh hpre
    have hb := hq b (List.mem_cons_self b t)
    have ht := fun b' hb' => hq b' (List.mem_cons_of_mem b hb')
    unfold qualifies at hb
    show searchLoop name (b :: (t ++ a :: l₂)) = some d
    unfold searchLoop
    rcases hbd : b.did with _ | bd <;> rcases hbh : b.handle with _ | bh
    · exact ih a l₂ d h ht hd hh hpre
    · exact ih a l₂ d h ht hd hh hpre
    · exact ih a l₂ d h ht hd hh hpre
    · rw [hbd, hbh] at hb
      have hb' : (lowerStr name).isPrefixOf (lowerStr bh) = false := hb
      show (if (lowerStr name).isPrefixOf (lowerStr bh) = true then some bd
          else searchLoop name (t ++ a :: l₂)) = some d
      rw [if_neg (by simp [hb'])]
      exact ih a l₂ d h ht hd hh hpre

/-- A rejected event produces no effects at all. -/
theorem on_update_filtered (env : Env) (x : Status) (h : ¬ filterOk env.uid x) :
    on_update env x = [] := by
  unfold on_update
  split_ifs with g0 g1 g2 g3 g4 g5
  · rfl
  · rfl
  · rfl
  · rfl
  · rfl
  · rfl
  · exfalso
    apply h
    refine ⟨not_ne_iff.mp g1, ?_, ?_, ?_, ?_, g4, g5⟩
    · rcases not_or.mp g2 with ⟨hv, _⟩; exact not_ne_iff.mp hv
    · rcases not_or.mp g2 with ⟨_, hb⟩; exact hb
    · rcases not_or.mp g3 with ⟨hi, _⟩; exact Option.not_isSome_iff_eq_none.mp hi
    · rcases not_or.mp g3 with ⟨_, hi⟩; exact Option.not_isSome_iff_eq_none.mp hi

/-- An accepted event (with at least one configured platform) always produces
the received-report effect first. -/
theorem on_update_passes (env : Env) (x : Status)
    (hcfg : env.twitter.isSome ∨ env.bluesky.isSome) (h : filterOk env.uid x) :
    ∃ rest, on_update env x = Effect.received :: rest := by
  obtain ⟨h1, h2, h3, h4, h5, h6, h7⟩ := h
  unfold on_update
  split_ifs with g0 g1 g2 g3
  · exfalso
    simp only [Bool.and_eq_true, Option.isNone_iff_eq_none] at g0
    rcases hcfg with hc | hc
    · simp [g0.1] at hc
    · simp [g0.2] at hc
  · exact absurd h1 g1
  · rcases g2 with gv | gb
    · exact absurd h2 gv
    · exact absurd gb h3
  · rcases g3 with gi | gi
    · rw [h4] at gi; simp at gi
    · rw [h5] at gi; simp at gi
  · exact ⟨_, rfl⟩

/-- Full unfolding of an accepted dispatch: the received report, the download
attempts, then — depending on the fetch outcome — either the failure report
alone, or sanitization, the two adapter legs in order, and cleanup. -/
theorem on_update_accepted (env : Env) (x : Status)
    (hcfg : env.twitter.isSome ∨ env.bluesky.isSome) (h : filterOk env.uid x) :
    on_update env x =
      Effect.received :: (get_media env.fetch x.mediaAttachments).1 ++
        match (get_media env.fetch x.mediaAttachments).2 with
        | FetchResult.err => [Effect.fetchFailed]
        | FetchResult.noMedia =>
          Effect.sanitized ::
            (twitterLeg env.twitter env.pfx x.postIdStr
                (applyReplace (env.sanitize (x.content.getD [])) env.replaceMap) none ++
             blueskyLeg env.bluesky env.pfx x.postIdStr
                (applyReplace (env.sanitize (x.content.getD [])) env.replaceMap) none ++
             cleanupEffects none)
        | FetchResult.media paths =>
          Effect.sanitized ::
            (twitterLeg env.twitter env.pfx x.postIdStr
                (applyReplace (env.sanitize (x.content.getD [])) env.replaceMap)
                (some paths) ++
             blueskyLeg env.bluesky env.pfx x.postIdStr
                (applyReplace (env.sanitize (x.content.getD [])) env.replaceMap)
                (some paths) ++
             cleanupEffects (some paths)) := by
  obtain ⟨h1, h2, h3, h4, h5, h6, h7⟩ := h
  unfold on_update
  split_ifs with g0 g1 g2 g3
  · exfalso
    simp only [Bool.and_eq_true, Option.isNone_iff_eq_none] at g0
    rcases hcfg with hc | hc
    · simp [g0.1] at hc
    · simp [g0.2] at hc
  · exact absurd h1 g1
  · rcases g2 with gv | gb
    · exact absurd h2 gv
    · exact absurd gb h3
  · rcases g3 with gi | gi
    · rw [h4] at gi; simp at gi
    · rw [h5] at gi; simp at gi
  · rfl

/-- The link-suffix step appends exactly under the length condition and leaves
the text untouched otherwise. -/
theorem appendLink_spec (limit : Nat) (y p postId : List Char) (hp : p ≠ []) :
    (appendLink limit (some p) postId y = y ++ '\n' :: (p ++ '/' :: postId) ↔
      y.length + 1 + (p ++ '/' :: postId).length ≤ limit) ∧
    (¬ y.length + 1 + (p ++ '/' :: postId).length ≤ limit →
      appendLink limit (some p) postId y = y) := by
  have hplen : 0 < p.length := List.length_pos.mpr hp
  have hshape : ∀ h : y.length + (p ++ '/' :: postId).length + 1 ≤ limit,
      appendLink limit (some p) postId y = y ++ '\n' :: (p ++ '/' :: postId) := by
    intro h
    simp only [appendLink]
    rw [if_pos hplen, if_pos h]
  have hskip : ∀ _ : ¬ y.length + (p ++ '/' :: postId).length + 1 ≤ limit,
      appendLink limit (some p) postId y = y := by
    intro h
    simp only [appendLink]
    rw [if_pos hplen, if_neg h]
  constructor
  · constructor
    · intro he
      by_contra hc
      rw [hskip (by omega)] at he
      have := congrArg List.length he
      simp at this
    · intro hc
      exact hshape (by omega)
  · intro hc
    exact hskip (by omega)

/-! ## Claims -/

/-- C2: for every sanitized text whose code-point length after artifact
removal exceeds 280, the Twitter leg's text before link-suffix handling is the
first 276 code points followed by `" ..."`: exactly 280 code points, the last
4 being `" ..."`; the cut happens between code points, so its UTF-8 encoding
splits cleanly at the 276-code-point boundary. -/
theorem C2_twitter_truncation (c : List Char)
    (h : 280 < (strReplace c artifact []).length) :
    twitterTrunc c = (strReplace c artifact []).take 276 ++ " ...".data ∧
    (twitterTrunc c).length = 280 ∧
    (twitterTrunc c).drop 276 = " ...".data ∧
    encode (twitterTrunc c) =
      encode ((strReplace c artifact []).take 276) ++ encode " ...".data := by
  have heq : twitterTrunc c = (strReplace c artifact []).take 276 ++ " ...".data := by
    simp only [twitterTrunc]
    rw [if_pos h]
  have hlen : ((strReplace c artifact []).take 276).length = 276 := by
    rw [List.length_take]; omega
  refine ⟨heq, ?_, ?_, ?_⟩
  · rw [heq, List.length_append, hlen]; decide
  · rw [heq, List.drop_left' hlen]
  · rw [heq, encode_append]

theorem C2_witness :
    280 < (strReplace (List.replicate 290 'a') artifact []).length ∧
    twitterTrunc (List.replicate 290 'a') =
      (strReplace (List.replicate 290 'a') artifact []).take 276 ++ " ...".data ∧
    (twitterTrunc (List.replicate 290 'a')).length = 280 :=
  ⟨by decide, (C2_twitter_truncation _ (by decide)).1, (C2_twitter_truncation _ (by decide)).2.1⟩

/-- C3: both adapter legs run the link-suffix step against their platform
limit (280 and 300); with a non-empty configured link base, the suffix
`"\n" + base + "/" + postID` is appended iff
`len(y) + 1 + len(base + "/" + postID)` is at most the limit, and the text is
unchanged otherwise. -/
theorem C3_link_suffix_iff (c y p postId : List Char) (hp : p ≠ []) :
    twitterAdapterText c (some p) postId =
      appendLink 280 (some p) postId (twitterTrunc c) ∧
    bskyAdapterText c (some p) postId =
      appendLink 300 (some p) postId (bskyTrunc c) ∧
    (appendLink 280 (some p) postId y = y ++ '\n' :: (p ++ '/' :: postId) ↔
      y.length + 1 + (p ++ '/' :: postId).length ≤ 280) ∧
    (¬ y.length + 1 + (p ++ '/' :: postId).length ≤ 280 →
      appendLink 280 (some p) postId y = y) ∧
    (appendLink 300 (some p) postId y = y ++ '\n' :: (p ++ '/' :: postId) ↔
      y.length + 1 + (p ++ '/' :: postId).length ≤ 300) ∧
    (¬ y.length + 1 + (p ++ '/' :: postId).length ≤ 300 →
      appendLink 300 (some p) postId y = y) :=
  ⟨rfl, rfl, (appendLink_spec 280 y p postId hp).1, (appendLink_spec 280 y p postId hp).2,
    (appendLink_spec 300 y p postId hp).1, (appendLink_spec 300 y p postId hp).2⟩

theorem C3_witness :
    ("s".data ≠ ([] : List Char)) ∧
    (appendLink 280 (some "s".data) "5".data "hi".data =
        "hi".data ++ '\n' :: ("s".data ++ '/' :: "5".data) ↔
      "hi".data.length + 1 + ("s".data ++ '/' :: "5".data).length ≤ 280) :=
  ⟨by decide, (C3_link_suffix_iff "x".data "hi".data "s".data "5".data (by decide)).2.2.1⟩

/-- C9: a sanitized text within the platform limit (280 for the Twitter leg,
300 for the BlueSky leg) with no link base configured passes through the
adapter unchanged apart from the literal artifact removal; no ellipsis is
appended. -/
theorem C9_short_text_unchanged (c postId : List Char) :
    (c.length ≤ 280 → twitterAdapterText c none postId = strReplace c artifact []) ∧
    (c.length ≤ 300 → bskyAdapterText c none postId = strReplace c artifact []) := by
  have hle := strReplace_nil_length_le c artifact
  constructor
  · intro h
    simp only [twitterAdapterText, appendLink, twitterTrunc]
    rw [if_neg (by omega)]
  · intro h
    simp only [bskyAdapterText, appendLink, bskyTrunc]
    rw [if_neg (by omega)]

theorem C9_witness :
    ("Hi".data.length ≤ 280 ∧
      twitterAdapterText "Hi".data none "5".data = strReplace "Hi".data artifact []) ∧
    ("Hi".data.length ≤ 300 ∧
      bskyAdapterText "Hi".data none "5".data = strReplace "Hi".data artifact []) :=
  ⟨⟨by decide, (C9_short_text_unchanged "Hi".data "5".data).1 (by decide)⟩,
    ⟨by decide, (C9_short_text_unchanged "Hi".data "5".data).2 (by decide)⟩⟩

/-- C8 counterexample: in `"a@b "` the `@` sits at byte 1 and is immediately
preceded by the non-whitespace byte `a` (97); the claim predicts the recorded
start shifts back to byte 0, but the scanner records byte 1 — the `@` position
itself (the decrement `if v > 0: v -= 1` always fires, because `m.start(1)` is
always positive). -/
theorem C8_counterexample :
    prase_mentions (encode "a@b ".data) =
      [{ start := 1, stop := 3, handle := ['b'] }] ∧
    (encode "a@b ".data).get? 0 = some 97 ∧
    isSpaceByte 97 = false ∧
    (∀ m ∈ prase_mentions (encode "a@b ".data), m.start ≠ 0) := by
  refine ⟨by decide, by decide, by decide, by decide⟩

/-- C8 (amended): for every mention parsed from the scanned bytes, the
recorded byte start is always the byte position of the `@` character —
regardless of whether the preceding byte is whitespace — and the recorded
handle is the raw handle without the `@`. -/
theorem C8_mention_start_at_sign (bs : List Nat) :
    ∀ m ∈ prase_mentions bs,
      bs.get? m.start = some 64 ∧
      m.handle = ((bs.drop (m.start + 1)).takeWhile isHandleByte).map Char.ofNat := by
  intro m hm
  obtain ⟨h64, _, _, hhandle⟩ := prase_mentions_props bs m hm
  exact ⟨h64, hhandle⟩

theorem C8_witness :
    ({ start := 1, stop := 3, handle := ['b'] } : RawMention) ∈
      prase_mentions (encode "a@b ".data) ∧
    (encode "a@b ".data).get? 1 = some 64 :=
  ⟨by decide,
    (C8_mention_start_at_sign (encode "a@b ".data)
      ({ start := 1, stop := 3, handle := ['b'] } : RawMention) (by decide)).1⟩

/-- C1: the BlueSky post record carries exactly the final adapted text (after
artifact removal, truncation, and link-suffix appension), its facets are
computed from that exact text, every facet's byte range is a non-empty range
within the UTF-8 encoding of that text, and every mention facet's byte start
is the encoded length of the code points before the mention — so at least the
mention's character index, and strictly greater as soon as any preceding code
point is multi-byte. -/
theorem C1_facets_on_final_text (resolve : List Char → ResolveResp)
    (search : List Char → SearchResp) (c : List Char) (pfx : Option (List Char))
    (postId : List Char) :
    (bskyPostRecord resolve search (bskyAdapterText c pfx postId)).text =
      bskyAdapterText c pfx postId ∧
    (bskyPostRecord resolve search (bskyAdapterText c pfx postId)).facets =
      prase_facets resolve search
        (bskyPostRecord resolve search (bskyAdapterText c pfx postId)).text ∧
    ∀ f ∈ (bskyPostRecord resolve search (bskyAdapterText c pfx postId)).facets,
      f.byteStart < f.byteEnd ∧
      f.byteEnd ≤ (encode (bskyAdapterText c pfx postId)).length ∧
      ∀ did, f.feature = FacetFeature.mention did →
        ∃ i, i ≤ (bskyAdapterText c pfx postId).length ∧
          (encode ((bskyAdapterText c pfx postId).take i)).length = f.byteStart ∧
          i ≤ f.byteStart ∧
          ((∃ ch ∈ (bskyAdapterText c pfx postId).take i, 2 ≤ utf8Len ch) →
            i < f.byteStart) := by
  refine ⟨rfl, rfl, ?_⟩
  intro f hf
  obtain ⟨hlt, hle, hmen⟩ := prase_facets_anatomy resolve search _ f hf
  refine ⟨hlt, hle, ?_⟩
  intro did hdid
  obtain ⟨h64, _⟩ := hmen did hdid
  exact ascii_byte_boundary _ f.byteStart 64 h64 (by omega)

theorem C1_witness :
    (({ byteStart := 3, byteEnd := 7, feature := FacetFeature.mention "did:plc:b".data } :
        Facet) ∈
      (bskyPostRecord r1 s1 (bskyAdapterText "é @bob".data none "1".data)).facets) ∧
    ((3 : Nat) < 7 ∧
      (7 : Nat) ≤ (encode (bskyAdapterText "é @bob".data none "1".data)).length ∧
      ∀ did, FacetFeature.mention "did:plc:b".data = FacetFeature.mention did →
        ∃ i, i ≤ (bskyAdapterText "é @bob".data none "1".data).length ∧
          (encode ((bskyAdapterText "é @bob".data none "1".data).take i)).length = 3 ∧
          i ≤ 3 ∧
          ((∃ ch ∈ (bskyAdapterText "é @bob".data none "1".data).take i, 2 ≤ utf8Len ch) →
            i < 3)) :=
  ⟨by decide,
    (C1_facets_on_final_text r1 s1 "é @bob".data none "1".data).2.2
      ({ byteStart := 3, byteEnd := 7, feature := FacetFeature.mention "did:plc:b".data } :
        Facet) (by decide)⟩

/-- C4: a successful exact-handle lookup short-circuits the fallback (the
result is independent of the search endpoint); otherwise the fallback runs: a
failed search or a missing candidate list yields no identifier, an all-
non-qualifying list yields no identifier, and the first qualifying candidate's
`"did"` wins; every emitted mention facet originates from a parsed mention
whose handle resolved, and the transmitted text is never modified by
resolution. -/
theorem C4_mention_resolution (resolve : List Char → ResolveResp)
    (search : List Char → SearchResp) (name : List Char) :
    (∀ d, exactHit resolve name = some d → ∀ s', find_user resolve s' name = some d) ∧
    (exactHit resolve name = none →
      ((search name).status ≠ 200 → find_user resolve search name = none) ∧
      ((search name).actors = none → find_user resolve search name = none) ∧
      ((search name).status = 200 → ∀ l, (search name).actors = some l →
        ((∀ a ∈ l, qualifies name a = false) → find_user resolve search name = none) ∧
        (∀ l₁ a l₂ d h, l = l₁ ++ a :: l₂ →
          (∀ b ∈ l₁, qualifies name b = false) →
          a.did = some d → a.handle = some h →
          (lowerStr name).isPrefixOf (lowerStr h) = true →
          find_user resolve search name = some d))) ∧
    (∀ y : List Char, (bskyPostRecord resolve search y).text = y ∧
      ∀ f ∈ (bskyPostRecord resolve search y).facets,
        ∀ did, f.feature = FacetFeature.mention did →
          ∃ m ∈ prase_mentions (encode y), f.byteStart = m.start ∧ f.byteEnd = m.stop ∧
            find_user resolve search m.handle = some did) := by
  refine ⟨?_, ?_, ?_⟩
  · intro d hd s'
    unfold find_user
    rw [hd]
  · intro hE
    have hfu : find_user resolve search name = searchFallback search name := by
      unfold find_user; rw [hE]
    refine ⟨?_, ?_, ?_⟩
    · intro hs
      rw [hfu]; unfold searchFallback; rw [if_pos hs]
    · intro ha
      rw [hfu]; unfold searchFallback
      by_cases hs : (search name).status ≠ 200
      · rw [if_pos hs]
      · rw [if_neg hs, ha]
    · intro hs200 l hl
      have hopen : searchFallback search name =
          (if l.length = 0 then none else searchLoop name l) := by
        unfold searchFallback
        rw [if_neg (by simp [hs200]), hl]
      constructor
      · intro hall
        rw [hfu, hopen]
        by_cases h0 : l.length = 0
        · rw [if_pos h0]
        · rw [if_neg h0, searchLoop_eq_none name l hall]
      · intro l₁ a l₂ d h hsplit hq hd hh hpre
        rw [hfu, hopen]
        have hne : l.length ≠ 0 := by rw [hsplit]; simp
        rw [if_neg hne, hsplit]
        exact searchLoop_first name l₁ a l₂ d h hq hd hh hpre
  · intro y
    refine ⟨rfl, ?_⟩
    intro f hf did hdid
    obtain ⟨_, _, hmen⟩ := prase_facets_anatomy resolve search y f hf
    obtain ⟨_, m, hm, h1, h2, h3⟩ := hmen did hdid
    exact ⟨m, hm, h1, h2, h3⟩

theorem C4_witness :
    exactHit resolve4 "bob".data = none ∧
    find_user resolve4 search4 "bob".data = some "d1".data :=
  ⟨by decide,
    ((((C4_mention_resolution resolve4 search4 "bob".data).2.1 (by decide)).2.2
        (by decide) [actor4a, actor4b] (by decide)).2 [actor4a] actor4b []
      "d1".data "Bobcat".data (by decide) (by decide) (by decide) (by decide)
      (by decide))⟩

/-- C10: the exact lookup always queries the parsed handle with the fixed
suffix `.bsky.social` appended; `_find_user` consults the resolver only
through that query, and whenever the suffixed query does not yield an
identifier — as for a handle that already names a full domain, whose suffixed
form resolves to nothing — the result comes from the fallback actor search
alone. -/
theorem C10_exact_lookup_suffix (resolve : List Char → ResolveResp)
    (search : List Char → SearchResp) (name : List Char) :
    exactQuery name = name ++ ".bsky.social".data ∧
    (exactHit resolve name = none →
      find_user resolve search name = searchFallback search name) ∧
    (∀ resolve' : List Char → ResolveResp,
      exactHit resolve' name = exactHit resolve name →
      find_user resolve' search name = find_user resolve search name) := by
  refine ⟨rfl, ?_, ?_⟩
  · intro hE
    unfold find_user; rw [hE]
  · intro resolve' hE
    unfold find_user; rw [hE]

theorem C10_witness :
    exactQuery "alice.example.com".data =
      "alice.example.com".data ++ ".bsky.social".data ∧
    exactHit resolve10 "alice.example.com".data = none ∧
    find_user resolve10 search10 "alice.example.com".data =
      searchFallback search10 "alice.example.com".data :=
  ⟨(C10_exact_lookup_suffix resolve10 search10 "alice.example.com".data).1,
    by decide,
    (C10_exact_lookup_suffix resolve10 search10 "alice.example.com".data).2.1 (by decide)⟩

/-- C5: with at least one destination configured, an event produces effects
iff it passes the filter — author id matches, visibility public, not marked
reblogged, no reply targets, no reblog object, non-empty content; in
particular an event with a non-null reply-to-post id produces no effects at
all: no fetch, no sanitization, no post, no cleanup. -/
theorem C5_filter_iff (env : Env) (x : Status)
    (hcfg : env.twitter.isSome ∨ env.bluesky.isSome) :
    (on_update env x ≠ [] ↔ filterOk env.uid x) ∧
    (x.inReplyToId ≠ none → on_update env x = []) := by
  constructor
  · constructor
    · intro hne
      by_contra hno
      exact hne (on_update_filtered env x hno)
    · intro hok
      obtain ⟨rest, hr⟩ := on_update_passes env x hcfg hok
      simp [hr]
  · intro hrep
    apply on_update_filtered
    rintro ⟨_, _, _, h4, _, _, _⟩
    exact hrep h4

theorem C5_witness :
    (env5.twitter.isSome ∨ env5.bluesky.isSome) ∧
    ((on_update env5 x5 ≠ [] ↔ filterOk env5.uid x5) ∧
      (x5.inReplyToId ≠ none → on_update env5 x5 = [])) :=
  ⟨Or.inl rfl, C5_filter_iff env5 x5 (Or.inl rfl)⟩

/-- C6: at the concrete dispatch whose second of three downloads raises
`OSError`, the trace is exactly the received report, the two download
attempts, and the fetch-failure report: no platform adapter is invoked, the
handler returns normally after reporting — but no removal of the first
downloaded scratch file is attempted, because the handler returns before the
cleanup loop. -/
theorem C6_fetch_failure_trace :
    on_update env6 x6 =
      [Effect.received, Effect.download "u0".data, Effect.download "u1".data,
        Effect.fetchFailed] ∧
    (on_update env6 x6).all (fun e => !(isRemoveOrPost e)) = true :=
  ⟨by decide, by decide⟩

/-- C7: for an accepted post with both platforms configured and all downloads
succeeding, the trace is the received report, the downloads, sanitization, the
full Twitter leg, the full BlueSky leg, and cleanup, in that order; whatever
the Twitter adapter returns — including an exception, modelled as `none` — the
BlueSky post attempt occurs, and every downloaded file gets a removal
attempt. -/
theorem C7_platform_isolation (env : Env) (x : Status) (tw bsk : Adapter)
    (htw : env.twitter = some tw) (hbs : env.bluesky = some bsk)
    (hok : filterOk env.uid x) (ds : List Effect) (paths : List (List Char))
    (hm : get_media env.fetch x.mediaAttachments = (ds, FetchResult.media paths))
    (c : List Char)
    (hc : c = applyReplace (env.sanitize (x.content.getD [])) env.replaceMap) :
    on_update env x =
      Effect.received :: ds ++
        (Effect.sanitized ::
          (twitterLeg (some tw) env.pfx x.postIdStr c (some paths) ++
           blueskyLeg (some bsk) env.pfx x.postIdStr c (some paths) ++
           cleanupEffects (some paths))) ∧
    Effect.bskyPost (bskyAdapterText c env.pfx x.postIdStr) (some paths) ∈
      on_update env x ∧
    ∀ pth ∈ paths, Effect.removeFile pth ∈ on_update env x := by
  subst hc
  have hcfg : env.twitter.isSome ∨ env.bluesky.isSome := Or.inl (by rw [htw]; rfl)
  have hmain := on_update_accepted env x hcfg hok
  rw [hm, htw, hbs] at hmain
  have hmain2 : on_update env x =
      Effect.received :: ds ++
        (Effect.sanitized ::
          (twitterLeg (some tw) env.pfx x.postIdStr
              (applyReplace (env.sanitize (x.content.getD [])) env.replaceMap)
              (some paths) ++
           blueskyLeg (some bsk) env.pfx x.postIdStr
              (applyReplace (env.sanitize (x.content.getD [])) env.replaceMap)
              (some paths) ++
           cleanupEffects (some paths))) := hmain
  refine ⟨hmain2, ?_, ?_⟩
  · rw [hmain2]
    apply List.mem_cons_of_mem
    apply List.mem_append_right ds
    apply List.mem_cons_of_mem
    apply List.mem_append_left
    apply List.mem_append_right
    exact (List.mem_cons_self _ _ :
      Effect.bskyPost
        (bskyAdapterText (applyReplace (env.sanitize (x.content.getD [])) env.replaceMap)
          env.pfx x.postIdStr) (some paths) ∈
      blueskyLeg (some bsk) env.pfx x.postIdStr
        (applyReplace (env.sanitize (x.content.getD [])) env.replaceMap) (some paths))
  · intro pth hpth
    have hclean : Effect.removeFile pth ∈ cleanupEffects (some paths) := by
      show Effect.removeFile pth ∈
        (if paths.length = 0 then [] else paths.map Effect.removeFile)
      rw [if_neg (fun h0 => by rw [List.length_eq_zero.mp h0] at hpth; simp at hpth)]
      exact List.mem_map_of_mem _ hpth
    rw [hmain2]
    apply List.mem_cons_of_mem
    apply List.mem_append_right ds
    apply List.mem_cons_of_mem
    exact List.mem_append_right _ hclean

theorem C7_witness :
    (env7.twitter = some tw7 ∧ env7.bluesky = some bsk7 ∧ filterOk env7.uid x7 ∧
      get_media env7.fetch x7.mediaAttachments =
        ([Effect.download "u".data], FetchResult.media ["f0".data])) ∧
    Effect.bskyPost (bskyAdapterText "Hi".data env7.pfx x7.postIdStr)
        (some ["f0".data]) ∈ on_update env7 x7 :=
  ⟨⟨rfl, rfl, by decide, by decide⟩,
    (C7_platform_isolation env7 x7 tw7 bsk7 rfl rfl (by decide)
      [Effect.download "u".data] ["f0".data] (by decide) "Hi".data (by decide)).2.1⟩

end CrossPost

example :
    CrossPost.parse_urls (CrossPost.encode "x https://ab.cd e".data) =
      [{ start := 2, stop := 15, urlBytes := CrossPost.encode "https://ab.cd".data }] := by
  decide

example :
    CrossPost.parse_urls (CrossPost.encode "http://www.ab.cd".data) =
      [{ start := 0, stop := 16, urlBytes := CrossPost.encode "http://www.ab.cd".data }] := by
  decide

example : CrossPost.strReplace "a@twitter.comb".data CrossPost.artifact [] = "ab".data := by
  decide

example : CrossPost.encode "é".data = [195, 169] := by decide

example :
    CrossPost.prase_mentions (CrossPost.encode "a@b ".data) =
      [{ start := 1, stop := 3, handle := ['b'] }] := by decide

example :
    CrossPost.parse_tags (CrossPost.encode "Hello #world".data) =
      [{ start := 6, stop := 12, tagBytes := (CrossPost.encode "world".data) }] := by decide
